import Mathlib

/-!
Shallow embedding of `src/KKKF/DynamicalSystems.py`.

The Python module works on numpy values.  We model a numpy value as either a
scalar or a one-dimensional vector of rationals (`NpVal`); numpy's
one-dimensional broadcasting addition is `npAdd` (scalar-with-vector broadcast
and length-1 broadcast included, a shape error is `none`).  `np.mean` over a
python list of values first forms an array (an error on ragged shapes) and
then averages all scalar entries into a single scalar (`npMean`).

Random sampling: scipy distributions draw from a pseudo-random stream.  We
model a distribution (`Rv`) as a function from a draw index to the drawn
value (a vector; a univariate distribution draws singletons), and thread the
current stream position `p : Nat` explicitly: `rvs(n)` at position `p` reads
draws `p, p+1, ..., p+n-1` and leaves the stream at `p+n`.  A map stored in a
`DynamicalSystem` is therefore a function of the argument and the stream
position, returning the result (`none` for a raised exception) and the new
position; a pure python function is embedded with the position unchanged.
-/

/-- A numpy value: a scalar or a one-dimensional array of rationals. -/
inductive NpVal where
  | scalar : ℚ → NpVal
  | vec : List ℚ → NpVal
deriving DecidableEq

/-- The scalar entries of a numpy value, in order. -/
def NpVal.toList : NpVal → List ℚ
  | .scalar q => [q]
  | .vec v => v

/-- numpy addition of one-dimensional values, with scalar and length-1
broadcasting; `none` is numpy's shape-mismatch error. -/
def npAdd : NpVal → NpVal → Option NpVal
  | .scalar a, .scalar b => some (.scalar (a + b))
  | .scalar a, .vec v => some (.vec (v.map (fun x => a + x)))
  | .vec v, .scalar a => some (.vec (v.map (fun x => x + a)))
  | .vec v, .vec u =>
    if v.length = u.length then some (.vec (List.zipWith (fun a b => a + b) v u))
    else if v.length = 1 then some (.vec (u.map (fun x => v.headD 0 + x)))
    else if u.length = 1 then some (.vec (v.map (fun x => x + u.headD 0)))
    else none

/-- numpy subtraction, same broadcasting rules as `npAdd`. -/
def npSub : NpVal → NpVal → Option NpVal
  | .scalar a, .scalar b => some (.scalar (a - b))
  | .scalar a, .vec v => some (.vec (v.map (fun x => a - x)))
  | .vec v, .scalar a => some (.vec (v.map (fun x => x - a)))
  | .vec v, .vec u =>
    if v.length = u.length then some (.vec (List.zipWith (fun a b => a - b) v u))
    else if v.length = 1 then some (.vec (u.map (fun x => v.headD 0 - x)))
    else if u.length = 1 then some (.vec (v.map (fun x => x - u.headD 0)))
    else none

/-- Scalar multiple of a numpy value (numpy `c * x`). -/
def npSMul (c : ℚ) : NpVal → NpVal
  | .scalar q => .scalar (c * q)
  | .vec v => .vec (v.map (fun x => c * x))

/-- Whether two numpy values have the same shape (so a python list of them
forms a non-ragged array). -/
def sameShapeB : NpVal → NpVal → Bool
  | .scalar _, .scalar _ => true
  | .vec v, .vec u => v.length == u.length
  | _, _ => false

/-- `np.mean` of a python list of numpy values: form an array (error when the
list is empty or ragged, or has no scalar entries), then return the single
scalar average of all scalar entries. -/
def npMean (l : List NpVal) : Option NpVal :=
  match l with
  | [] => none
  | a :: rest =>
    if rest.all (fun b => sameShapeB a b) then
      let flat := ((a :: rest).map NpVal.toList).flatten
      if flat.length = 0 then none
      else some (.scalar (flat.sum / (flat.length : ℚ)))
    else none

/-- A python list comprehension applying a fallible function: `none` as soon
as one element raises. -/
def mapOpt (f : α → Option β) : List α → Option (List β)
  | [] => some []
  | a :: l => (f a).bind (fun b => (mapOpt f l).map (fun bs => b :: bs))

/-- A scipy probability distribution, modelled by the values its
pseudo-random stream yields: `draw k` is the `k`-th elementary draw (a
univariate distribution draws singleton vectors). -/
structure Rv where
  draw : Nat → List ℚ

/-- The `k`-th draw as the numpy value iteration over `rvs(n)` yields: a
univariate distribution gives a one-dimensional array, whose elements are
scalars; a vector-valued one gives rows. -/
def Rv.drawVal (dist : Rv) (k : Nat) : NpVal :=
  match dist.draw k with
  | [q] => .scalar q
  | l => .vec l

/-- `dist.rvs(size=n)` at stream position `p`, flattened to its scalar
entries (the raw sample output that `reshape` then reorganises). -/
def Rv.rvsFlat (dist : Rv) (p n : Nat) : List ℚ :=
  ((List.range n).map (fun i => dist.draw (p + i))).flatten

/-- A map held by a system: argument and stream position in, optional result
(`none` = raised exception) and new stream position out. -/
abbrev NpMap := NpVal → Nat → Option NpVal × Nat

/-- `DynamicalSystem.__init__`: the seven fields, stored as given. -/
structure DynamicalSystem where
  nx : Nat
  ny : Nat
  f : NpMap
  g : NpMap
  dist_X : Rv
  dist_dyn : Rv
  dist_obs : Rv

/-- `DynamicalSystem.dynamics`: `return self.f(x) + w`. -/
def DynamicalSystem.dynamics (s : DynamicalSystem) (x w : NpVal) (p : Nat) :
    Option NpVal × Nat :=
  let r := s.f x p
  (r.1.bind (fun fx => npAdd fx w), r.2)

/-- `DynamicalSystem.measurements`: `return self.g(x) + v`. -/
def DynamicalSystem.measurements (s : DynamicalSystem) (x v : NpVal) (p : Nat) :
    Option NpVal × Nat :=
  let r := s.g x p
  (r.1.bind (fun gx => npAdd gx v), r.2)

/-- `l.take c :: ...`: reorganise a flat list into `rows` rows of `cols`
entries each (the action of `reshape((rows, cols))` on the flat data). -/
def chunkRows : Nat → Nat → List ℚ → List (List ℚ)
  | 0, _, _ => []
  | r + 1, c, l => l.take c :: chunkRows r c (l.drop c)

/-- numpy `reshape((rows, cols))`: succeeds exactly when the flat data has
`rows * cols` entries, else raises (`none`). -/
def reshape2 (l : List ℚ) (rows cols : Nat) : Option (List (List ℚ)) :=
  if l.length = rows * cols then some (chunkRows rows cols l) else none

/-- `DynamicalSystem.sample_initial_state`:
`return self.dist_X.rvs(size=size).reshape((size, self.nx))`.
Drawing advances the stream by `size` elementary draws. -/
def DynamicalSystem.sample_initial_state (s : DynamicalSystem) (size : Nat)
    (p : Nat) : Option (List (List ℚ)) × Nat :=
  (reshape2 (s.dist_X.rvsFlat p size) size s.nx, p + size)

/-- The derived map of `create_additive_system`:
`lambda x: np.mean([f(x, w) for w in dist.rvs(N_samples)])`.
`dist.rvs(N_samples)` runs inside the lambda body, so each call reads `N`
fresh draws at the current stream position and advances the stream. -/
def additive_map (f : NpVal → NpVal → Option NpVal) (dist : Rv) (N : Nat) :
    NpMap :=
  fun x p =>
    ((mapOpt (fun w => f x w)
        ((List.range N).map (fun i => dist.drawVal (p + i)))).bind npMean,
     p + N)

/-- `create_additive_system`: build the two derived maps and store them with
the three distributions and the dimensions. -/
def create_additive_system (nx ny : Nat)
    (f g : NpVal → NpVal → Option NpVal)
    (dist_X dist_dyn dist_obs : Rv) (N_samples : Nat) : DynamicalSystem :=
  ⟨nx, ny, additive_map f dist_dyn N_samples, additive_map g dist_obs N_samples,
   dist_X, dist_dyn, dist_obs⟩

/-- One call into a `DynamicalSystem`, with its arguments. -/
inductive SysOp where
  | dyn (x w : NpVal)
  | meas (x v : NpVal)
  | sample (size : Nat)

/-- Run one call on a system at a stream position: the system after the call
(the methods assign no field) and the new stream position. -/
def runOp (sp : DynamicalSystem × Nat) (o : SysOp) : DynamicalSystem × Nat :=
  match o with
  | .dyn x w => (sp.1, (sp.1.dynamics x w sp.2).2)
  | .meas x v => (sp.1, (sp.1.measurements x v sp.2).2)
  | .sample n => (sp.1, (sp.1.sample_initial_state n sp.2).2)

/-- The pure-python maps of the concrete systems used below: a constant
transition map returning `[1, 2]`. -/
def cF2 : NpMap := fun _ p => (some (.vec [1, 2]), p)

/-- Constant observation map returning `[3, 4]`. -/
def cG2 : NpMap := fun _ p => (some (.vec [3, 4]), p)

/-- A distribution whose stream is constantly zero. -/
def dZero : Rv := ⟨fun _ => [0]⟩

/-- A univariate distribution whose `k`-th draw is the scalar `k`: its
successive draws are pairwise distinct. -/
def dStep : Rv := ⟨fun k => [(k : ℚ)]⟩

/-- A univariate distribution that always draws the scalar `1`. -/
def dOne : Rv := ⟨fun _ => [(1 : ℚ)]⟩

/-- The noise-selecting raw map `f(x, w) = w`. -/
def idNoise : NpVal → NpVal → Option NpVal := fun _ w => some w

/-- The system of the C7 scenario: `nx = ny = 1`, `f = lambda x: x + 1`,
`g = lambda x: 2 * x`. -/
def c7sys : DynamicalSystem :=
  ⟨1, 1, fun x p => (npAdd x (.scalar 1), p), fun x p => (some (npSMul 2 x), p),
   dZero, dZero, dZero⟩

/-- A directly-constructed system with constant maps, used as witness input. -/
def c2sys : DynamicalSystem := ⟨2, 2, cF2, cG2, dZero, dZero, dZero⟩

/-- A system sharing `cF2`/`cG2` with `c10b` but with different dimensions
and distributions. -/
def c10a : DynamicalSystem := ⟨1, 1, cF2, cG2, dZero, dZero, dZero⟩

/-- A system sharing `cF2`/`cG2` with `c10a` but with different dimensions
and distributions. -/
def c10b : DynamicalSystem := ⟨5, 7, cF2, cG2, dStep, dStep, dStep⟩

/-- The additive system built from the step distribution with `N_samples = 1`
and the raw map `f(x, w) = w`: its derived map exposes the re-sampling. -/
def c1sys : DynamicalSystem :=
  create_additive_system 1 1 idNoise idNoise dStep dStep dStep 1

/-- The additive system of the C6 scenario: `raw f(x, w) = x + w`, noise
always drawing `1`, `N_samples = 3`. -/
def c6sys : DynamicalSystem :=
  create_additive_system 1 1 (fun x w => npAdd x w) (fun x w => npAdd x w)
    dOne dOne dOne 3

/-- A raw map returning the constant vector `[1, 2]`, used as witness input. -/
def c3f : NpVal → NpVal → Option NpVal := fun _ _ => some (.vec [1, 2])

/-- A directly-constructed system whose initial-state distribution is the
step stream, used as witness input for sampling. -/
def c4sys : DynamicalSystem := ⟨1, 1, cF2, cG2, dStep, dStep, dStep⟩

-- Helper lemmas

theorem zipWith_add_replicate_zero (v : List ℚ) :
    List.zipWith (fun a b => a + b) v (List.replicate v.length 0) = v := by
  induction v with
  | nil => rfl
  | cons a l ih => simp [List.replicate, ih]

theorem zipWith_sub_add_cancel (v w1 w2 : List ℚ) (h1 : w1.length = v.length)
    (h2 : w2.length = v.length) :
    List.zipWith (fun a b => a - b) (List.zipWith (fun a b => a + b) v w1)
        (List.zipWith (fun a b => a + b) v w2) =
      List.zipWith (fun a b => a - b) w1 w2 := by
  induction v generalizing w1 w2 with
  | nil =>
    cases w1 with
    | nil => cases w2 <;> rfl
    | cons b t1 => exact absurd h1 (by simp)
  | cons a l ih =>
    cases w1 with
    | nil => exact absurd h1 (by simp)
    | cons b t1 =>
      cases w2 with
      | nil => exact absurd h2 (by simp)
      | cons c t2 =>
        simp only [List.zipWith_cons_cons]
        rw [ih t1 t2 (by simpa using h1) (by simpa using h2),
          add_sub_add_left_eq_sub]

theorem chunkRows_length (r c : Nat) (l : List ℚ) :
    (chunkRows r c l).length = r := by
  induction r generalizing l with
  | zero => rfl
  | succ n ih => simp [chunkRows, ih]

theorem chunkRows_row_length (r c : Nat) (l : List ℚ) (h : l.length = r * c) :
    ∀ row ∈ chunkRows r c l, row.length = c := by
  induction r generalizing l with
  | zero => intro row hrow; simp [chunkRows] at hrow
  | succ n ih =>
    have hc : c ≤ l.length := by
      rw [h, Nat.succ_mul]; exact Nat.le_add_left c (n * c)
    intro row hrow
    rw [chunkRows, List.mem_cons] at hrow
    rcases hrow with hrow | hrow
    · rw [hrow, List.length_take c l]; exact Nat.min_eq_left hc
    · refine ih (l.drop c) ?_ row hrow
      rw [List.length_drop c l, h, Nat.succ_mul, Nat.add_sub_cancel]

theorem mapOpt_length (f : α → Option β) (l : List α) (ys : List β)
    (h : mapOpt f l = some ys) : ys.length = l.length := by
  induction l generalizing ys with
  | nil =>
    rw [mapOpt] at h
    cases h; rfl
  | cons a t ih =>
    rw [mapOpt] at h
    cases hfa : f a with
    | none => rw [hfa] at h; cases h
    | some b =>
      rw [hfa] at h
      simp only [Option.some_bind] at h
      cases hmt : mapOpt f t with
      | none => rw [hmt] at h; cases h
      | some bs =>
        rw [hmt] at h
        cases h
        simp [ih bs hmt]

theorem npMean_vecs (vals : List (List ℚ)) (d : Nat) (hne : vals ≠ [])
    (hd : ∀ v ∈ vals, v.length = d) (hdpos : 0 < d) :
    npMean (vals.map NpVal.vec) =
      some (.scalar ((vals.map List.sum).sum / ((vals.length * d : Nat) : ℚ))) := by
  match vals, hne with
  | v :: rest, _ =>
    have hall : (rest.map NpVal.vec).all (fun b => sameShapeB (.vec v) b) = true := by
      rw [List.all_eq_true]
      intro b hb
      rw [List.mem_map] at hb
      obtain ⟨u, hu, rfl⟩ := hb
      simp [sameShapeB, hd u (List.mem_cons_of_mem _ hu),
        hd v (List.mem_cons_self _ _)]
    have hmap : ((v :: rest).map NpVal.vec).map NpVal.toList = v :: rest := by
      rw [List.map_map]
      have hcomp : NpVal.toList ∘ NpVal.vec = fun u : List ℚ => u := by
        funext u; rfl
      rw [hcomp, List.map_id']
    have hflatlen :
        ((((v :: rest).map NpVal.vec).map NpVal.toList).flatten).length
          = (v :: rest).length * d := by
      rw [List.length_flatten, hmap]
      have hconst : (v :: rest).map List.length = (v :: rest).map (fun _ => d) :=
        List.map_congr_left (fun u hu => hd u hu)
      rw [hconst, List.map_const', List.sum_replicate, smul_eq_mul]
    have hflatsum :
        ((((v :: rest).map NpVal.vec).map NpVal.toList).flatten).sum
          = ((v :: rest).map List.sum).sum := by
      rw [hmap, List.sum_flatten]
    rw [List.map_cons, npMean]
    rw [if_pos hall]
    have hlenpos :
        ¬((((NpVal.vec v :: rest.map NpVal.vec)).map NpVal.toList).flatten).length = 0 := by
      rw [show (NpVal.vec v :: rest.map NpVal.vec) = (v :: rest).map NpVal.vec from rfl]
      rw [hflatlen]
      have : 0 < (v :: rest).length * d :=
        Nat.mul_pos (List.length_pos_of_ne_nil (by simp)) hdpos
      omega
    simp only [hlenpos, if_neg, if_false]
    rw [show (NpVal.vec v :: rest.map NpVal.vec) = (v :: rest).map NpVal.vec from rfl]
    rw [hflatsum, hflatlen]

theorem drawVal_const (dist : Rv) (h : ∀ k, dist.draw k = dist.draw 0) (k : Nat) :
    dist.drawVal k = dist.drawVal 0 := by
  rw [Rv.drawVal, Rv.drawVal, h k]

theorem runOp_fst (sp : DynamicalSystem × Nat) (o : SysOp) : (runOp sp o).1 = sp.1 := by
  cases o <;> rfl

theorem foldl_runOp_fst (ops : List SysOp) :
    ∀ sp : DynamicalSystem × Nat, (ops.foldl runOp sp).1 = sp.1 := by
  induction ops with
  | nil => intro sp; rfl
  | cons o t ih =>
    intro sp
    rw [List.foldl_cons, ih (runOp sp o), runOp_fst]

/-- Claim C2: `dynamics(x, w)` returns `transition_map(x) + w` element-wise
and `measurements(x, v)` returns `observation_map(x) + v` element-wise; with
a zero vector of matching length as noise, they return the maps' values
unchanged. -/
theorem spec_C2 (s : DynamicalSystem) (x w : NpVal) (p : Nat) (fx gx : NpVal)
    (pf pg : Nat) (hf : s.f x p = (some fx, pf)) (hg : s.g x p = (some gx, pg)) :
    (s.dynamics x w p).1 = npAdd fx w ∧
    (s.measurements x w p).1 = npAdd gx w ∧
    (∀ v, fx = .vec v →
      (s.dynamics x (.vec (List.replicate v.length 0)) p).1 = some fx) ∧
    (∀ u, gx = .vec u →
      (s.measurements x (.vec (List.replicate u.length 0)) p).1 = some gx) := by
  refine ⟨?_, ?_, ?_, ?_⟩
  · simp [DynamicalSystem.dynamics, hf]
  · simp [DynamicalSystem.measurements, hg]
  · intro v hv
    subst hv
    simp [DynamicalSystem.dynamics, hf, npAdd, zipWith_add_replicate_zero]
  · intro u hu
    subst hu
    simp [DynamicalSystem.measurements, hg, npAdd, zipWith_add_replicate_zero]

/-- Witness for C2 at the constant-map system `c2sys`. -/
theorem spec_C2_witness :
    (c2sys.dynamics (.scalar 0) (.vec [10, 20]) 0).1
        = npAdd (.vec [1, 2]) (.vec [10, 20]) ∧
    (c2sys.measurements (.scalar 0) (.vec [10, 20]) 0).1
        = npAdd (.vec [3, 4]) (.vec [10, 20]) ∧
    (∀ v, NpVal.vec [1, 2] = .vec v →
      (c2sys.dynamics (.scalar 0) (.vec (List.replicate v.length 0)) 0).1
        = some (.vec [1, 2])) ∧
    (∀ u, NpVal.vec [3, 4] = .vec u →
      (c2sys.measurements (.scalar 0) (.vec (List.replicate u.length 0)) 0).1
        = some (.vec [3, 4])) :=
  spec_C2 c2sys (.scalar 0) (.vec [10, 20]) 0 (.vec [1, 2]) (.vec [3, 4]) 0 0
    rfl rfl

/-- Claim C5: for noise vectors `w1`, `w2` of the same shape as the
transition map's value, `dynamics(x, w1) - dynamics(x, w2) = w1 - w2`,
whatever the transition map returns. -/
theorem spec_C5 (s : DynamicalSystem) (x : NpVal) (v w1 w2 : List ℚ)
    (p pf : Nat) (hf : s.f x p = (some (.vec v), pf))
    (h1 : w1.length = v.length) (h2 : w2.length = v.length) :
    ∃ y1 y2, (s.dynamics x (.vec w1) p).1 = some y1 ∧
      (s.dynamics x (.vec w2) p).1 = some y2 ∧
      npSub y1 y2 = npSub (.vec w1) (.vec w2) := by
  refine ⟨.vec (List.zipWith (fun a b => a + b) v w1),
    .vec (List.zipWith (fun a b => a + b) v w2), ?_, ?_, ?_⟩
  · simp [DynamicalSystem.dynamics, hf, npAdd, h1]
  · simp [DynamicalSystem.dynamics, hf, npAdd, h2]
  · simp only [npSub, List.length_zipWith, h1, h2, Nat.min_self, if_pos]
    rw [zipWith_sub_add_cancel v w1 w2 h1 h2]

/-- Witness for C5 at the constant-map system `c2sys`. -/
theorem spec_C5_witness :
    ∃ y1 y2, (c2sys.dynamics (.scalar 0) (.vec [5, 7]) 0).1 = some y1 ∧
      (c2sys.dynamics (.scalar 0) (.vec [1, 1]) 0).1 = some y2 ∧
      npSub y1 y2 = npSub (.vec [5, 7]) (.vec [1, 1]) :=
  spec_C5 c2sys (.scalar 0) [1, 2] [5, 7] [1, 1] 0 0 rfl rfl rfl

/-- Claim C7: for the scenario system with `f = x + 1` and `g = 2 * x`,
`dynamics([5], [0.1]) = [6.1]` and `measurements([5], [0]) = [10]`. -/
theorem spec_C7 :
    (c7sys.dynamics (.vec [5]) (.vec [1/10]) 0).1 = some (.vec [61/10]) ∧
    (c7sys.measurements (.vec [5]) (.vec [0]) 0).1 = some (.vec [10]) := by
  constructor
  · simp [c7sys, DynamicalSystem.dynamics, npAdd]
    norm_num
  · simp [c7sys, DynamicalSystem.measurements, npSMul, npAdd]
    norm_num

/-- Claim C8: no operation mutates a system: after any sequence of calls to
`dynamics`, `measurements` and `sample_initial_state`, all seven fields are
the construction-time values. -/
theorem spec_C8 (s : DynamicalSystem) (p : Nat) (ops : List SysOp) :
    (ops.foldl runOp (s, p)).1.nx = s.nx ∧
    (ops.foldl runOp (s, p)).1.ny = s.ny ∧
    (ops.foldl runOp (s, p)).1.f = s.f ∧
    (ops.foldl runOp (s, p)).1.g = s.g ∧
    (ops.foldl runOp (s, p)).1.dist_X = s.dist_X ∧
    (ops.foldl runOp (s, p)).1.dist_dyn = s.dist_dyn ∧
    (ops.foldl runOp (s, p)).1.dist_obs = s.dist_obs := by
  rw [foldl_runOp_fst ops (s, p)]
  exact ⟨rfl, rfl, rfl, rfl, rfl, rfl, rfl⟩

/-- Claim C9: `create_additive_system` returns a system whose maps are the
two derived maps and whose dimensions and three distributions are the
arguments, unchanged. -/
theorem spec_C9 (nx ny : Nat) (f g : NpVal → NpVal → Option NpVal)
    (dX dDyn dObs : Rv) (N : Nat) :
    (create_additive_system nx ny f g dX dDyn dObs N).nx = nx ∧
    (create_additive_system nx ny f g dX dDyn dObs N).ny = ny ∧
    (create_additive_system nx ny f g dX dDyn dObs N).f = additive_map f dDyn N ∧
    (create_additive_system nx ny f g dX dDyn dObs N).g = additive_map g dObs N ∧
    (create_additive_system nx ny f g dX dDyn dObs N).dist_X = dX ∧
    (create_additive_system nx ny f g dX dDyn dObs N).dist_dyn = dDyn ∧
    (create_additive_system nx ny f g dX dDyn dObs N).dist_obs = dObs :=
  ⟨rfl, rfl, rfl, rfl, rfl, rfl, rfl⟩

/-- Claim C10: `dynamics` and `measurements` depend only on the stored maps
and the arguments: systems sharing `f` and `g` agree on every input, whatever
their dimensions and distributions; and a `dynamics` call succeeds exactly
when the addition is defined, with no check against `nx`. -/
theorem spec_C10 (s1 s2 : DynamicalSystem) (hf : s1.f = s2.f)
    (hg : s1.g = s2.g) :
    (∀ x w p, s1.dynamics x w p = s2.dynamics x w p ∧
      s1.measurements x w p = s2.measurements x w p) ∧
    (∀ x w p fx pf, s1.f x p = (some fx, pf) →
      ((s1.dynamics x w p).1.isSome ↔ (npAdd fx w).isSome)) := by
  constructor
  · intro x w p
    constructor
    · simp [DynamicalSystem.dynamics, hf]
    · simp [DynamicalSystem.measurements, hg]
  · intro x w p fx pf hfx
    simp [DynamicalSystem.dynamics, hfx]

/-- Witness for C10: `c10a` and `c10b` differ in `nx`, `ny` and all three
distributions but share the maps; `x` has length 3, unequal to either `nx`. -/
theorem spec_C10_witness :
    c10a.dynamics (.vec [1, 2, 3]) (.vec [7, 7]) 0
        = c10b.dynamics (.vec [1, 2, 3]) (.vec [7, 7]) 0 ∧
    c10a.measurements (.vec [1, 2, 3]) (.vec [7, 7]) 0
        = c10b.measurements (.vec [1, 2, 3]) (.vec [7, 7]) 0 ∧
    ((c10a.dynamics (.vec [1, 2, 3]) (.vec [7, 7]) 0).1.isSome ↔
      (npAdd (.vec [1, 2]) (.vec [7, 7])).isSome) :=
  ⟨((spec_C10 c10a c10b rfl rfl).1 (.vec [1, 2, 3]) (.vec [7, 7]) 0).1,
   ((spec_C10 c10a c10b rfl rfl).1 (.vec [1, 2, 3]) (.vec [7, 7]) 0).2,
   (spec_C10 c10a c10b rfl rfl).2 (.vec [1, 2, 3]) (.vec [7, 7]) 0
     (.vec [1, 2]) 0 rfl⟩

/-- Claim C1, counterexample: in `c1sys` the derived transition map draws
from the noise stream inside each call, so the first call (stream position 0)
returns `0`, leaves the stream at position 1, and the second successive call
returns `1`: two successive calls on the same state differ. -/
theorem spec_C1_counterexample :
    (c1sys.f (.scalar 0) 0).1 = some (.scalar 0) ∧
    (c1sys.f (.scalar 0) 0).2 = 1 ∧
    (c1sys.f (.scalar 0) 1).1 = some (.scalar 1) ∧
    (c1sys.f (.scalar 0) 0).1 ≠ (c1sys.f (.scalar 0) (c1sys.f (.scalar 0) 0).2).1 := by
  refine ⟨?_, rfl, ?_, ?_⟩ <;>
    simp [c1sys, create_additive_system, additive_map, mapOpt, idNoise, npMean,
      sameShapeB, NpVal.toList, Rv.drawVal, dStep]

/-- Claim C1, amended: the derived maps re-draw `N_samples` noise values at
every call; when the noise distribution's stream is constant the calls at any
two stream positions return the same value. -/
theorem spec_C1_amended (nx ny N : Nat) (f g : NpVal → NpVal → Option NpVal)
    (dX dDyn dObs : Rv) (hdyn : ∀ k, dDyn.draw k = dDyn.draw 0)
    (hobs : ∀ k, dObs.draw k = dObs.draw 0) (x : NpVal) (p q : Nat) :
    ((create_additive_system nx ny f g dX dDyn dObs N).f x p).1 =
      ((create_additive_system nx ny f g dX dDyn dObs N).f x q).1 ∧
    ((create_additive_system nx ny f g dX dDyn dObs N).g x p).1 =
      ((create_additive_system nx ny f g dX dDyn dObs N).g x q).1 := by
  have edyn : ∀ r : Nat, (List.range N).map (fun i => dDyn.drawVal (r + i))
      = (List.range N).map (fun _ => dDyn.drawVal 0) := by
    intro r
    exact List.map_congr_left (fun i _ => drawVal_const dDyn hdyn (r + i))
  have eobs : ∀ r : Nat, (List.range N).map (fun i => dObs.drawVal (r + i))
      = (List.range N).map (fun _ => dObs.drawVal 0) := by
    intro r
    exact List.map_congr_left (fun i _ => drawVal_const dObs hobs (r + i))
  constructor
  · simp only [create_additive_system, additive_map]
    rw [edyn p, edyn q]
  · simp only [create_additive_system, additive_map]
    rw [eobs p, eobs q]

/-- Witness for the amended C1 at the constant distribution `dOne`. -/
theorem spec_C1_witness :
    ((create_additive_system 1 1 idNoise idNoise dOne dOne dOne 2).f
        (.scalar 0) 0).1 =
      ((create_additive_system 1 1 idNoise idNoise dOne dOne dOne 2).f
        (.scalar 0) 5).1 ∧
    ((create_additive_system 1 1 idNoise idNoise dOne dOne dOne 2).g
        (.scalar 0) 0).1 =
      ((create_additive_system 1 1 idNoise idNoise dOne dOne dOne 2).g
        (.scalar 0) 5).1 :=
  spec_C1_amended 1 1 2 idNoise idNoise dOne dOne dOne (fun _ => rfl)
    (fun _ => rfl) (.scalar 0) 0 5

/-- Claim C3: a call of a derived map evaluates the raw function once per
drawn noise sample, and when every result is a vector of uniform positive
length the call returns the single scalar that averages all scalar entries
of all results. -/
theorem spec_C3 (f : NpVal → NpVal → Option NpVal) (dist : Rv) (N : Nat)
    (x : NpVal) (p : Nat) (vals : List (List ℚ)) (d : Nat)
    (h : mapOpt (fun w => f x w)
        ((List.range N).map (fun i => dist.drawVal (p + i)))
      = some (vals.map NpVal.vec))
    (hd : ∀ v ∈ vals, v.length = d) (hN : 0 < N) (hdpos : 0 < d) :
    vals.length = N ∧
    ((additive_map f dist N) x p).1 =
      some (.scalar ((vals.map List.sum).sum / ((N * d : Nat) : ℚ))) := by
  have hlen : vals.length = N := by
    have := mapOpt_length _ _ _ h
    simpa using this
  refine ⟨hlen, ?_⟩
  have hne : vals ≠ [] := by
    intro hnil
    rw [hnil] at hlen
    exact absurd hlen.symm (Nat.pos_iff_ne_zero.mp hN)
  simp only [additive_map, h, Option.some_bind]
  rw [npMean_vecs vals d hne hd hdpos, hlen]

/-- Witness for C3: constant raw map returning `[1, 2]`, two draws. -/
theorem spec_C3_witness :
    ([[(1 : ℚ), 2], [1, 2]] : List (List ℚ)).length = 2 ∧
    ((additive_map c3f dOne 2) (.scalar 0) 0).1 =
      some (.scalar ((([[(1 : ℚ), 2], [1, 2]] : List (List ℚ)).map List.sum).sum
        / ((2 * 2 : Nat) : ℚ))) :=
  spec_C3 c3f dOne 2 (.scalar 0) 0 [[1, 2], [1, 2]] 2 rfl
    (by
      intro v hv
      simp only [List.mem_cons, List.not_mem_nil, or_false] at hv
      rcases hv with rfl | rfl <;> rfl)
    (by norm_num) (by norm_num)

/-- Claim C4: `sample_initial_state(count)` returns `count` rows of `nx`
entries exactly when the raw sample output has `count * nx` scalar entries,
raises a reshape error otherwise, and returns the empty container for
`count = 0`. -/
theorem spec_C4 (s : DynamicalSystem) (size p : Nat) :
    ((s.dist_X.rvsFlat p size).length = size * s.nx →
      ∃ m, (s.sample_initial_state size p).1 = some m ∧ m.length = size ∧
        ∀ row ∈ m, row.length = s.nx) ∧
    ((s.dist_X.rvsFlat p size).length ≠ size * s.nx →
      (s.sample_initial_state size p).1 = none) ∧
    (size = 0 → (s.sample_initial_state size p).1 = some []) := by
  refine ⟨?_, ?_, ?_⟩
  · intro h
    refine ⟨chunkRows size s.nx (s.dist_X.rvsFlat p size), ?_,
      chunkRows_length _ _ _, chunkRows_row_length _ _ _ h⟩
    simp [DynamicalSystem.sample_initial_state, reshape2, h]
  · intro h
    simp [DynamicalSystem.sample_initial_state, reshape2, h]
  · intro h
    subst h
    simp [DynamicalSystem.sample_initial_state, reshape2, Rv.rvsFlat, chunkRows]

/-- Witness for C4: the step distribution draws three scalars for
`count = 3` with `nx = 1`, so sampling returns three rows of one entry. -/
theorem spec_C4_witness :
    ∃ m, (c4sys.sample_initial_state 3 0).1 = some m ∧ m.length = 3 ∧
      ∀ row ∈ m, row.length = c4sys.nx :=
  (spec_C4 c4sys 3 0).1 rfl

/-- Claim C6, counterexample: in the C6 scenario the raw map at the vector
state `[0, 2]` with noise `1` yields `[1, 3]`, but the derived map collapses
the mean to the single scalar `2`, so it does not return `x + 1` at every
state. -/
theorem spec_C6_counterexample :
    npAdd (.vec [0, 2]) (.scalar 1) = some (.vec [1, 3]) ∧
    (c6sys.f (.vec [0, 2]) 0).1 = some (.scalar 2) ∧
    (c6sys.f (.vec [0, 2]) 0).1 ≠ some (.vec [1, 3]) := by
  refine ⟨?_, ?_, ?_⟩ <;>
    simp [c6sys, create_additive_system, additive_map, mapOpt, npMean,
      sameShapeB, NpVal.toList, Rv.drawVal, dOne, npAdd] <;>
    norm_num

/-- Claim C6, amended: in the C6 scenario the derived transition map sends
every scalar state `a` to `a + 1` (the mean of three identical draws). -/
theorem spec_C6_amended (a : ℚ) (p : Nat) :
    (c6sys.f (.scalar a) p).1 = some (.scalar (a + 1)) := by
  simp [c6sys, create_additive_system, additive_map, mapOpt, npMean,
    sameShapeB, NpVal.toList, Rv.drawVal, dOne, npAdd]
  ring

